import Mathlib

/-!
# Verification of the stock-screener signal-discovery pipeline

This file gives a shallow embedding, in Lean 4, of the core of
`src/stock_screener.py`: the ticker-code validator, the structured
extractor that digs a JSON payload out of free model text, the
provider-fallback search loop, the news screener (accumulate /
dedup / rank / truncate) and the combined three-tier merge.
External collaborators (search providers, the language model, the
discussion-board scrape) are modelled as explicit function or list
parameters; everything else is translated from the source.

Python floats are modelled by `ℚ`; every concrete rational in the
executable paths is built with `mkRat` on integer arithmetic.
Python strings are modelled by `String`, processed as `List Char`.
-/

/-- Brace characters, named so that scanning code can mention them. -/
def lbrace : Char := Char.ofNat 123

def rbrace : Char := Char.ofNat 125

/-- `SignalType` enum from the source (`利好`/`利空`/`中性`). -/
inductive SignalType where
  | POSITIVE
  | NEGATIVE
  | NEUTRAL
deriving DecidableEq

/-- `StockSignal` dataclass from the source. `confidence` (a Python
float) is modelled by `ℚ`. -/
structure StockSignal where
  code : String
  name : String
  signal_type : SignalType
  reason : String
  source : String
  confidence : ℚ
  news_title : String
deriving DecidableEq

/-- One element of a search provider's `results` sequence
(collaborator-owned, consumed read-only). -/
structure SearchResult where
  title : String
  source : String
  snippet : String
deriving DecidableEq

/-- A search provider's response: a success flag and result list. -/
structure SearchResponse where
  success : Bool
  results : List SearchResult
deriving DecidableEq

/-- `StockScreener._is_valid_stock_code`: true iff the code is
non-empty, all digits, of length 6, and its two-character prefix is
one of the accepted exchange prefixes. Translated directly from the
source's early-return structure. -/
def _is_valid_stock_code (code : String) : Bool :=
  if code.data.isEmpty || !(code.data.all Char.isDigit) then false
  else if code.data.length ≠ 6 then false
  else
    let pfx := code.data.take 2
    pfx == ['6', '0'] || pfx == ['6', '8'] || pfx == ['0', '0'] ||
    pfx == ['3', '0'] || pfx == ['8', '3'] || pfx == ['4', '3'] ||
    pfx == ['8', '7']

/-- The validity predicate as the spec words it: exactly 6 digits
whose first two characters are in the accepted prefix set. -/
def specValidCode (code : String) : Prop :=
  code.data.length = 6 ∧ (∀ c ∈ code.data, c.isDigit) ∧
  code.data.take 2 ∈
    [['6', '0'], ['6', '8'], ['0', '0'], ['3', '0'],
     ['8', '3'], ['4', '3'], ['8', '7']]

theorem _is_valid_stock_code_iff (code : String) :
    _is_valid_stock_code code = true ↔ specValidCode code := by
  constructor
  · intro h
    unfold _is_valid_stock_code at h
    by_cases hemp : code.data.isEmpty
    · simp [hemp] at h
    · by_cases hdig : code.data.all Char.isDigit
      · by_cases hlen : code.length = 6
        · refine ⟨by simpa using hlen,
            fun c hc => List.all_eq_true.mp hdig c hc, ?_⟩
          simp [hemp, hdig, hlen] at h
          simp only [List.mem_cons, List.mem_singleton]
          tauto
        · simp [hemp, hdig, hlen] at h
      · simp [hemp, hdig] at h
  · rintro ⟨hlen, hdig, hpfx⟩
    unfold _is_valid_stock_code
    have hemp : code.data ≠ [] := by
      intro hd; rw [hd] at hlen; simp at hlen
    have hall : code.data.all Char.isDigit = true :=
      List.all_eq_true.mpr hdig
    rw [if_neg, if_neg]
    · simp only [Bool.or_eq_true, beq_iff_eq]
      simp only [List.mem_cons, List.mem_singleton] at hpfx
      tauto
    · omega
    · simp [hall, hemp]

/-- C3: `_is_valid_stock_code(code)` is true iff `code` is exactly 6
digits whose first two characters are in the set 60/68/00/30/83/43/87;
being a total boolean predicate, it never throws (second conjunct). -/
theorem claim_C3_validator (code : String) :
    (_is_valid_stock_code code = true ↔ specValidCode code) ∧
    (_is_valid_stock_code code = true ∨ _is_valid_stock_code code = false) :=
  ⟨_is_valid_stock_code_iff code, Bool.eq_false_or_eq_true _⟩

/-- JSON values, the image of Python's `json.loads`: strings, numbers
(`ℚ`, since every JSON numeral is an exact decimal), booleans, null,
arrays and objects (assoc lists; duplicate keys resolved last-wins by
`dictGet`, as `json.loads` does). -/
inductive JsonVal where
  | str (s : String)
  | num (q : ℚ)
  | bool (b : Bool)
  | null
  | arr (items : List JsonVal)
  | obj (fields : List (String × JsonVal))

/-- ASCII whitespace, as used by JSON, by the regex class `\s` and by
Python's `str.strip` (their unicode extensions are not exercised by any
claim). -/
def isWsChar (c : Char) : Bool :=
  decide (c.toNat ∈ [32, 9, 10, 13, 11, 12])

/-- The backtick character. -/
def btick : Char := Char.ofNat 96

/-- JSON string escapes, keyed by code point: quote, backslash and
slash map to themselves, and `n`/`t`/`r`/`b`/`f` to their control
characters (`\uXXXX` is not modelled; no claim uses it). -/
def escChar (c : Char) : Option Char :=
  match c.toNat with
  | 34 => some c
  | 92 => some c
  | 47 => some c
  | 110 => some (Char.ofNat 10)
  | 116 => some (Char.ofNat 9)
  | 114 => some (Char.ofNat 13)
  | 98 => some (Char.ofNat 8)
  | 102 => some (Char.ofNat 12)
  | _ => none

/-- Scan a JSON string body up to its closing quote; returns the decoded
characters and the remaining input. -/
def parseStrChars : List Char → Option (List Char × List Char)
  | [] => none
  | '"' :: rest => some ([], rest)
  | '\\' :: c :: rest =>
    match escChar c, parseStrChars rest with
    | some e, some (cs, r) => some (e :: cs, r)
    | _, _ => none
  | c :: rest =>
    match parseStrChars rest with
    | some (cs, r) => some (c :: cs, r)
    | none => none

def digitVal (c : Char) : Nat := c.toNat - 48

def digitsToNat (ds : List Char) : Nat :=
  ds.foldl (fun acc c => acc * 10 + digitVal c) 0

/-- The exact rational `±(intDigits.fracDigits) · 10^exp`, built with
`mkRat` on integer arithmetic only. -/
def ratOfParts (neg : Bool) (intDigits fracDigits : List Char) (exp : Int) : ℚ :=
  let m : Nat := digitsToNat (intDigits ++ fracDigits)
  let sm : Int := if neg then -(m : Int) else (m : Int)
  let fexp : Int := exp - (fracDigits.length : Int)
  if 0 ≤ fexp then mkRat (sm * (((10 : Nat) ^ fexp.toNat : Nat) : Int)) 1
  else mkRat sm ((10 : Nat) ^ (-fexp).toNat)

/-- JSON fractional part: a dot must be followed by at least one digit. -/
def parseFracPart : List Char → Option (List Char × List Char)
  | '.' :: rest =>
    let ds := rest.takeWhile Char.isDigit
    if ds.isEmpty then none else some (ds, rest.drop ds.length)
  | l => some (([] : List Char), l)

/-- Exponent part shared by JSON numerals and Python float literals. -/
def parseExpPart : List Char → Option (Int × List Char)
  | [] => some (0, [])
  | c :: rest =>
    if c == 'e' || c == 'E' then
      let (neg, r1) : Bool × List Char :=
        match rest with
        | '+' :: r => (false, r)
        | '-' :: r => (true, r)
        | r => (false, r)
      let ds := r1.takeWhile Char.isDigit
      if ds.isEmpty then none
      else
        let e : Int := if neg then -(digitsToNat ds : Int) else (digitsToNat ds : Int)
        some (e, r1.drop ds.length)
    else some (0, c :: rest)

/-- A JSON numeral: optional minus, digits, optional fraction, optional
exponent. -/
def parseNumber (l : List Char) : Option (ℚ × List Char) :=
  let (neg, l1) : Bool × List Char :=
    match l with
    | '-' :: rest => (true, rest)
    | _ => (false, l)
  let intDs := l1.takeWhile Char.isDigit
  if intDs.isEmpty then none
  else
    match parseFracPart (l1.drop intDs.length) with
    | none => none
    | some (fracDs, l3) =>
      match parseExpPart l3 with
      | none => none
      | some (e, l4) => some (ratOfParts neg intDs fracDs e, l4)

def skipWs (l : List Char) : List Char := l.dropWhile isWsChar

mutual

/-- Recursive-descent JSON value parser (model of `json.loads`), with a
fuel argument bounding the nesting depth; `jsonParse` supplies fuel
exceeding the input length, which exceeds any possible depth. -/
def parseVal : Nat → List Char → Option (JsonVal × List Char)
  | 0, _ => none
  | fuel + 1, l =>
    match skipWs l with
    | [] => none
    | c :: rest =>
      if c == lbrace then
        match skipWs rest with
        | [] => none
        | c2 :: rest2 =>
          if c2 == rbrace then some (.obj [], rest2)
          else
            match parseObjFields fuel (c2 :: rest2) with
            | some (fs, r) => some (.obj fs, r)
            | none => none
      else if c == '[' then
        match skipWs rest with
        | [] => none
        | c2 :: rest2 =>
          if c2 == ']' then some (.arr [], rest2)
          else
            match parseArrItems fuel (c2 :: rest2) with
            | some (vs, r) => some (.arr vs, r)
            | none => none
      else if c == '"' then
        match parseStrChars rest with
        | some (cs, r) => some (.str (String.mk cs), r)
        | none => none
      else if (c :: rest).take 4 = ['t', 'r', 'u', 'e'] then
        some (.bool true, (c :: rest).drop 4)
      else if (c :: rest).take 5 = ['f', 'a', 'l', 's', 'e'] then
        some (.bool false, (c :: rest).drop 5)
      else if (c :: rest).take 4 = ['n', 'u', 'l', 'l'] then
        some (.null, (c :: rest).drop 4)
      else
        match parseNumber (c :: rest) with
        | some (q, r) => some (.num q, r)
        | none => none

/-- Comma-separated array items, consuming the closing bracket. -/
def parseArrItems : Nat → List Char → Option (List JsonVal × List Char)
  | 0, _ => none
  | fuel + 1, l =>
    match parseVal fuel l with
    | none => none
    | some (v, r) =>
      match skipWs r with
      | [] => none
      | c :: r2 =>
        if c == ',' then
          match parseArrItems fuel r2 with
          | some (vs, r3) => some (v :: vs, r3)
          | none => none
        else if c == ']' then some ([v], r2)
        else none

/-- Comma-separated `"key": value` fields, consuming the closing brace. -/
def parseObjFields : Nat → List Char → Option (List (String × JsonVal) × List Char)
  | 0, _ => none
  | fuel + 1, l =>
    match skipWs l with
    | '"' :: rest =>
      match parseStrChars rest with
      | none => none
      | some (kcs, r) =>
        match skipWs r with
        | ':' :: r2 =>
          match parseVal fuel r2 with
          | none => none
          | some (v, r3) =>
            match skipWs r3 with
            | [] => none
            | c :: r4 =>
              if c == ',' then
                match parseObjFields fuel r4 with
                | some (fs, r5) => some ((String.mk kcs, v) :: fs, r5)
                | none => none
              else if c == rbrace then some ([(String.mk kcs, v)], r4)
              else none
        | _ => none
    | _ => none

end

/-- Model of `json.loads`: parse one value and require only whitespace
to remain; `none` models the `JSONDecodeError` raised on failure. -/
def jsonParse (s : String) : Option JsonVal :=
  match parseVal (s.data.length + 1) s.data with
  | some (v, rest) => if skipWs rest = [] then some v else none
  | none => none

/-- `dict.get(key)` on a parsed JSON object: last binding wins, as
duplicate keys overwrite in `json.loads`. -/
def dictGet (fields : List (String × JsonVal)) (key : String) : Option JsonVal :=
  ((fields.reverse).find? (fun kv => kv.1 == key)).map (fun kv => kv.2)

/-- `s.get(key, dflt)` on an entry dict. -/
def entryGet (fields : List (String × JsonVal)) (key : String) (dflt : JsonVal) : JsonVal :=
  (dictGet fields key).getD dflt

/-- Python `str.strip()`: ASCII whitespace stripped from both ends. -/
def pyStrip (s : String) : String :=
  String.mk (((s.data.dropWhile isWsChar).reverse.dropWhile isWsChar).reverse)

/-- Python `str.lower()` (ASCII case folding suffices for the mapped
keywords `positive`/`negative`). -/
def pyLower (s : String) : String := String.mk (s.data.map Char.toLower)

/-- Python `float(string)` on finite decimal literals: optional sign,
digits with at most one dot (either side may be empty, not both), and
an optional exponent. `inf`/`nan`/underscore literals are outside the
model (treated as unparseable; no claim exercises them). -/
def pyFloatOfChars (l : List Char) : Option ℚ :=
  let (neg, l1) : Bool × List Char :=
    match l with
    | '-' :: r => (true, r)
    | '+' :: r => (false, r)
    | _ => (false, l)
  let intDs := l1.takeWhile Char.isDigit
  let l2 := l1.drop intDs.length
  let (fracDs, l3) : List Char × List Char :=
    match l2 with
    | '.' :: r => (r.takeWhile Char.isDigit, r.drop (r.takeWhile Char.isDigit).length)
    | _ => ([], l2)
  if intDs.isEmpty && fracDs.isEmpty then none
  else
    match parseExpPart l3 with
    | some (e, []) => some (ratOfParts neg intDs fracDs e)
    | _ => none

/-- Python `float(x)` applied to a JSON value: numbers pass through,
booleans become 0/1, strings are parsed after stripping whitespace;
`None`, lists and dicts raise `TypeError` (here: `none`). -/
def pyFloat : JsonVal → Option ℚ
  | .num q => some q
  | .bool b => some (if b then 1 else 0)
  | .str s => pyFloatOfChars (pyStrip s).data
  | _ => none

/-- Does `\s*` followed by three backticks match a prefix of `l`? Used
as the closing check of the lazy group in extraction tier 1. -/
def ticksAfterWs (l : List Char) : Bool :=
  (l.dropWhile isWsChar).take 3 == [btick, btick, btick]

/-- Lazy scan of tier 1's group `\x7b[\s\S]*?\x7d`: the shortest prefix
ending at a closing brace that is followed by `` \s*``` ``; returns the
group's characters after the opening brace, including that closing
brace. Trying every longer end position on failure is exactly the
regex engine's lazy backtracking. -/
def tier1Lazy : List Char → Option (List Char)
  | [] => none
  | c :: rest =>
    if c == rbrace && ticksAfterWs rest then some [c]
    else
      match tier1Lazy rest with
      | some cs => some (c :: cs)
      | none => none

/-- Text after tier 1's opening backticks, with an optional `json` tag
consumed. When the text starts with `json`, the regex branch that
declines to consume the tag dies immediately (`\s*` cannot absorb the
letter `j` before `\x7b`), so greedy consumption is equivalent to full
backtracking over `(?:json)?`. -/
def tier1Rest (l : List Char) : List Char :=
  if (l.drop 3).take 4 = ['j', 's', 'o', 'n'] then (l.drop 3).drop 4
  else l.drop 3

/-- Match of `` ```(?:json)?\s*(\x7b[\s\S]*?\x7d)\s*``` `` anchored at
the start of `l`, returning capture group 1. -/
def tier1At (l : List Char) : Option (List Char) :=
  if l.take 3 = [btick, btick, btick] then
    match (tier1Rest l).dropWhile isWsChar with
    | c :: r2 =>
      if c == lbrace then
        match tier1Lazy r2 with
        | some cs => some (lbrace :: cs)
        | none => none
      else none
    | [] => none
  else none

/-- Leftmost-match search: try the anchored matcher at every start
position, earliest first — the semantics of `re.search`. -/
def reSearch {α : Type} (matchAt : List Char → Option α) : List Char → Option α
  | [] => none
  | c :: rest =>
    match matchAt (c :: rest) with
    | some res => some res
    | none => reSearch matchAt rest

/-- Is `\s*` followed by a closing brace a prefix of `l`? Closing check
of the lazy part in extraction tier 2. -/
def rbraceAfterWs (l : List Char) : Bool :=
  match l.dropWhile isWsChar with
  | d :: _ => d == rbrace
  | [] => false

/-- The literal `"stocks"` (including its quotes) from tier 2's regex. -/
def stocksLit : List Char := ("\"stocks\"").data

/-- Length of the maximal brace-free prefix — the longest text
`[^\x7b\x7d]*` can consume. -/
def nonBraceLen (l : List Char) : Nat :=
  (l.takeWhile (fun c => !(c == lbrace || c == rbrace))).length

/-- Lazy scan of tier 2's tail `[\s\S]*?\]\s*\x7d`: shortest prefix up
to a `]` that is followed by `\s*\x7d`, returning the matched text
through the closing brace. -/
def tier2Lazy : List Char → Option (List Char)
  | [] => none
  | c :: rest =>
    if c == ']' && rbraceAfterWs rest then
      some (c :: ((rest.takeWhile isWsChar) ++ [rbrace]))
    else
      match tier2Lazy rest with
      | some cs => some (c :: cs)
      | none => none

/-- Match of `\x7b[^\x7b\x7d]*"stocks"[^\x7b\x7d]*\[[\s\S]*?\]\s*\x7d`
anchored at the start of `l`, returning the whole match. The two greedy
`[^\x7b\x7d]*` pieces backtrack from their longest extent, the bracketed
tail is lazy — mirrored by the descending ranges and `tier2Lazy`. -/
def tier2At (l : List Char) : Option (List Char) :=
  match l with
  | [] => none
  | c :: r =>
    if c == lbrace then
      (List.range (nonBraceLen r + 1)).reverse.findSome? (fun k =>
        let afterA := r.drop k
        if afterA.take 8 = stocksLit then
          let r2 := afterA.drop 8
          (List.range (nonBraceLen r2 + 1)).reverse.findSome? (fun j =>
            match r2.drop j with
            | d :: r3 =>
              if d == '[' then
                match tier2Lazy r3 with
                | some cs =>
                  some (lbrace :: (r.take k ++ stocksLit ++ r2.take j ++ '[' :: cs))
                | none => none
              else none
            | [] => none)
        else none)
    else none

/-- Match of `\x7b[\s\S]*\x7d` anchored at the start of `l`: greedy, so
it reaches to the last closing brace of the whole remaining text. -/
def tier3At (l : List Char) : Option (List Char) :=
  match l with
  | [] => none
  | c :: r =>
    if c == lbrace then
      match r.reverse.findIdx? (fun d => d == rbrace) with
      | some i => some (c :: r.take (r.length - i))
      | none => none
    else none

/-- The three-tier JSON excavation of `_extract_stocks_from_news`
(source lines 259-275): fenced code block first, then the keyed brace
scan, then any outermost brace pair. -/
def findJsonStr (response : String) : Option String :=
  match reSearch tier1At response.data with
  | some g => some (String.mk g)
  | none =>
    match reSearch tier2At response.data with
    | some m => some (String.mk m)
    | none => (reSearch tier3At response.data).map String.mk

/-- The signal-type mapping (source lines 286-289): the dict literal
keyed by the lower-cased `signal` field, with `NEUTRAL` as the `.get`
default for anything else. -/
def signalTypeOf (s : String) : SignalType :=
  if s == "positive" then .POSITIVE
  else if s == "negative" then .NEGATIVE
  else .NEUTRAL

/-- Text stored for `name`/`reason`. Python keeps a non-string JSON
value unchanged in the dataclass field; no claim observes such values,
and they are rendered opaquely here. String values are kept exactly. -/
def jsonFieldText : JsonVal → String
  | .str s => s
  | _ => "<non-string>"

/-- The `for s in stocks_data` loop of `_extract_stocks_from_news`
(source lines 280-299). Entries with invalid codes are skipped
(`continue`); duck-typing failures — `.strip()`/`.lower()` on a
non-string, `float()` on an uncoercible value, `.get` on a non-dict —
raise, modelled by `Except.error`, which aborts the whole batch. -/
def processEntries (results : List SearchResult) :
    List JsonVal → Except Unit (List StockSignal)
  | [] => .ok []
  | e :: rest =>
    match e with
    | .obj fields =>
      match entryGet fields "code" (.str "") with
      | .str codeRaw =>
        let code := pyStrip codeRaw
        if !(_is_valid_stock_code code) then processEntries results rest
        else
          match entryGet fields "signal" (.str "") with
          | .str sigRaw =>
            match pyFloat (entryGet fields "confidence" (.num (mkRat 1 2))) with
            | some conf =>
              let sig : StockSignal :=
                { code := code
                  name := jsonFieldText (entryGet fields "name" (.str "未知"))
                  signal_type := signalTypeOf (pyLower sigRaw)
                  reason := jsonFieldText (entryGet fields "reason" (.str ""))
                  source := match results with | [] => "新闻" | r :: _ => r.source
                  confidence := conf
                  news_title := match results with | [] => "" | r :: _ => r.title }
              match processEntries results rest with
              | .ok sigs => .ok (sig :: sigs)
              | .error err => .error err
            | none => .error ()
          | _ => .error ()
      | _ => .error ()
    | _ => .error ()

/-- Iterating `stocks_data`: a JSON array iterates its entries; an empty
dict or empty string iterates nothing; any other shape either cannot be
iterated or yields elements without `.get`, raising at the first one. -/
def processStocks (stocks_data : JsonVal) (results : List SearchResult) :
    Except Unit (List StockSignal) :=
  match stocks_data with
  | .arr entries => processEntries results entries
  | .obj [] => .ok []
  | .str s => if s = "" then .ok [] else .error ()
  | _ => .error ()

/-- Body of the `try` block of `_extract_stocks_from_news` after the
model response is in hand (source lines 259-301): excavate a JSON
string, `json.loads` it (parse failure raises), read `stocks` with
default `[]` (raising when the payload is not a dict), and run the
entry loop. Finding no JSON-like structure is a plain empty return,
not an exception. -/
def extractStocksBody (response : String) (results : List SearchResult) :
    Except Unit (List StockSignal) :=
  match findJsonStr response with
  | none => .ok []
  | some json_str =>
    match jsonParse json_str with
    | none => .error ()
    | some data =>
      match data with
      | .obj fields => processStocks ((dictGet fields "stocks").getD (.arr [])) results
      | _ => .error ()

/-- `StockScreener._extract_stocks_from_news`, taking the optional
model-response text as a parameter (the return value of
`_generate_content`, which swallows its own failures and returns
`None`): an absent or empty response returns `[]` early, and any
exception from the body is caught and converted to `[]`. -/
def _extract_stocks_from_news (response : Option String)
    (results : List SearchResult) : List StockSignal :=
  match response with
  | none => []
  | some r =>
    if r = "" then []
    else
      match extractStocksBody r results with
      | .ok sigs => sigs
      | .error _ => []

/-- A search provider as seen by `_search_and_extract`: an availability
flag and a `search(query, max_results, days)` call that may throw
(`Except.error`). -/
structure Provider where
  is_available : Bool
  search : String → Nat → Nat → Except Unit SearchResponse

/-- Does a response end the provider loop (`response.success and
response.results`)? -/
def qualifies (r : SearchResponse) : Bool := r.success && !r.results.isEmpty

/-- The provider loop of `_search_and_extract` (source lines 212-221):
skip unavailable providers, catch throwing ones, break on the first
successful non-empty response; `last` is the lingering `response`
variable, which keeps the most recent non-qualifying response. -/
def providerLoop (q : String) : List Provider → Option SearchResponse →
    Option SearchResponse
  | [], last => last
  | p :: ps, last =>
    if p.is_available then
      match p.search q 5 3 with
      | .ok r => if qualifies r then some r else providerLoop q ps (some r)
      | .error _ => providerLoop q ps last
    else providerLoop q ps last

/-- The search half of `_search_and_extract`: run the provider loop and
apply the final `if not response or not response.success or not
response.results` check (source lines 223-225). -/
def searchNews (ps : List Provider) (q : String) : Option SearchResponse :=
  match providerLoop q ps none with
  | some r => if qualifies r then some r else none
  | none => none

/-- `StockScreener._format_news_for_llm` (source lines 240-245). -/
def _format_news_for_llm (results : List SearchResult) : String :=
  String.intercalate "\n---\n"
    ((List.enumFrom 1 results).map (fun ir =>
      "[新闻" ++ toString ir.1 ++ "] " ++ ir.2.title ++ "\n来源: " ++
      ir.2.source ++ "\n摘要: " ++ ir.2.snippet ++ "\n"))

/-- `StockScreener._search_and_extract`: search with fallback, return
`[]` on no usable response, otherwise format the news and extract. The
language-model collaborator is the parameter `gen`, mapping the
formatted news content to the optional response text; the fixed prompt
template wrapped around that content in the source is absorbed into
`gen`, since every claim quantifies over the collaborator. -/
def _search_and_extract (ps : List Provider) (gen : String → Option String)
    (q : String) : List StockSignal :=
  match searchNews ps q with
  | none => []
  | some resp =>
    _extract_stocks_from_news (gen (_format_news_for_llm resp.results)) resp.results

/-- The built-in default query list `NEWS_QUERIES` (source lines
95-108). -/
def NEWS_QUERIES : List String :=
  ["A股 利好 今日", "A股 重大合同 公告", "上市公司 业绩预增",
   "机构调研 热门股", "北向资金 买入", "涨停 复盘 龙头",
   "site:tgb.cn 龙头 涨停", "site:guba.eastmoney.com 利好 主力",
   "site:xueqiu.com 重仓 看好"]

/-- `queries = queries or NEWS_QUERIES` (source line 180): Python's
`or` takes the default both when the argument is `None` and when it is
an empty (falsy) list. -/
def resolveQueries (queries : Option (List String)) : List String :=
  match queries with
  | none => NEWS_QUERIES
  | some qs => if qs.isEmpty then NEWS_QUERIES else qs

/-- The append-with-seen-set idiom shared by the accumulation loop of
`screen_from_news` (source lines 186-196, with `keep` always true) and
the three merge tiers of `screen_combined` (source lines 408-424):
append each signal whose code is unseen and which passes `keep`,
recording its code. -/
def addSignals (keep : StockSignal → Bool) :
    List StockSignal → List StockSignal × List String →
    List StockSignal × List String
  | [], st => st
  | s :: rest, (acc, seen) =>
    if !(seen.contains s.code) && keep s then
      addSignals keep rest (acc ++ [s], s.code :: seen)
    else addSignals keep rest (acc, seen)

/-- The accumulated `all_signals` of `screen_from_news`: per-query
signal lists (the `fetch` collaborator stands for
`_search_and_extract`) folded through first-seen-wins dedup. -/
def newsAccum (queries : Option (List String))
    (fetch : String → List StockSignal) : List StockSignal :=
  ((resolveQueries queries).foldl
    (fun st q => addSignals (fun _ => true) (fetch q) st) ([], [])).1

/-- The sort key of source lines 199-202: `(signal_type == POSITIVE,
confidence)`. -/
def screenKey (s : StockSignal) : Bool × ℚ :=
  (s.signal_type == SignalType.POSITIVE, s.confidence)

/-- Lexicographic `≤` on sort keys, with `false < true`. -/
def keyLEb (a b : Bool × ℚ) : Bool :=
  (!a.1 && b.1) || ((a.1 == b.1) && decide (a.2 ≤ b.2))

/-- `a` may precede `b` in the ranked output: `a`'s key is at least
`b`'s. A stable sort by this total preorder is exactly Python's stable
`sort(key=..., reverse=True)`. -/
def screenRel (a b : StockSignal) : Prop := keyLEb (screenKey b) (screenKey a) = true

instance : DecidableRel screenRel := fun a b =>
  inferInstanceAs (Decidable (keyLEb (screenKey b) (screenKey a) = true))

theorem keyLEb_total (a b : Bool × ℚ) : keyLEb a b = true ∨ keyLEb b a = true := by
  unfold keyLEb
  rcases a with ⟨ab, aq⟩
  rcases b with ⟨bb, bq⟩
  rcases le_total aq bq with h | h <;> cases ab <;> cases bb <;> simp [h]

theorem keyLEb_trans (a b c : Bool × ℚ) (hab : keyLEb a b = true)
    (hbc : keyLEb b c = true) : keyLEb a c = true := by
  unfold keyLEb at *
  rcases a with ⟨ab, aq⟩
  rcases b with ⟨bb, bq⟩
  rcases c with ⟨cb, cq⟩
  cases ab <;> cases bb <;> cases cb <;> simp_all <;> exact le_trans hab hbc

instance : IsTotal StockSignal screenRel :=
  ⟨fun a b => by
    rcases keyLEb_total (screenKey b) (screenKey a) with h | h
    · exact Or.inl h
    · exact Or.inr h⟩

instance : IsTrans StockSignal screenRel :=
  ⟨fun _ _ _ hab hbc => keyLEb_trans _ _ _ hbc hab⟩

/-- `StockScreener.screen_from_news` (source lines 169-207): resolve
the queries, accumulate per-query signals with first-seen-wins dedup,
stably sort by `(is-positive, confidence)` descending, truncate to
`top_n`. -/
def screen_from_news (top_n : Nat) (queries : Option (List String))
    (fetch : String → List StockSignal) : List StockSignal :=
  (List.insertionSort screenRel (newsAccum queries fetch)).take top_n

/-- `StockScreener.screen_combined` (source lines 388-426): news
signals oversampled to `top_n * 2`, then three dedup tiers — positive
news, supplementary (`guba_signals`, the discussion-board collaborator,
already absorbed to `[]` on failure), remaining news — truncated to
`top_n`. -/
def screen_combined (top_n : Nat) (queries : Option (List String))
    (fetch : String → List StockSignal) (guba_signals : List StockSignal) :
    List StockSignal :=
  let news_signals := screen_from_news (top_n * 2) queries fetch
  let st1 := addSignals (fun s => s.signal_type == SignalType.POSITIVE)
    news_signals ([], [])
  let st2 := addSignals (fun _ => true) guba_signals st1
  let st3 := addSignals (fun _ => true) news_signals st2
  st3.1.take top_n

/-- Single-pass first-seen-wins dedup by code, as the spec words the
merge policy. -/
def dedupByCode (l : List StockSignal) : List StockSignal :=
  (addSignals (fun _ => true) l ([], [])).1

/-- The fallback contract as the spec words it: the first available,
non-throwing provider whose response has `success` set and non-empty
results. -/
def specFallback (ps : List Provider) (q : String) : Option SearchResponse :=
  ps.findSome? (fun p =>
    if p.is_available then
      match p.search q 5 3 with
      | .ok r => if qualifies r then some r else none
      | .error _ => none
    else none)

/-- Observational equivalence of provider lists that differ only in the
`search` functions of unavailable providers: used to state that a
skipped provider's search is never invoked. -/
def provEquiv (p p' : Provider) : Prop :=
  p.is_available = p'.is_available ∧
  (p.is_available = true → p.search = p'.search)

/-- Model text from the extraction-robustness property: a fenced block
whose payload is the one-stock object of the claim. -/
def c4Response : String :=
  "分析如下\n```json\n\x7b\"stocks\":[\x7b\"code\":\"600519\",\"name\":\"X\",\"signal\":\"positive\",\"confidence\":0.8,\"reason\":\"r\"\x7d]\x7d\n```"

def c4Results : List SearchResult := [⟨"标题", "来源A", "摘要"⟩]

set_option maxRecDepth 10000 in
/-- C4: on model text containing the fenced payload
`\x7b"stocks":[\x7b"code":"600519","name":"X","signal":"positive","confidence":0.8,"reason":"r"\x7d]\x7d`,
extraction yields exactly one signal, with code `600519`, signal type
`POSITIVE` and confidence `0.8`. -/
theorem claim_C4_extraction :
    _extract_stocks_from_news (some c4Response) c4Results =
      [⟨"600519", "X", .POSITIVE, "r", "来源A", mkRat 4 5, "标题"⟩] := by
  decide

theorem firstNonWs_mem (l : List Char) (c : Char) (r : List Char)
    (h : l.dropWhile isWsChar = c :: r) : c ∈ l :=
  (List.dropWhile_sublist isWsChar).mem (h ▸ List.mem_cons_self c r)

theorem tier1Rest_sublist (l : List Char) : (tier1Rest l).Sublist l := by
  unfold tier1Rest
  split
  · exact ((l.drop 3).drop_sublist 4).trans (l.drop_sublist 3)
  · exact l.drop_sublist 3

theorem tier1At_none (l : List Char) (h : ∀ c ∈ l, ¬(c = lbrace)) :
    tier1At l = none := by
  unfold tier1At
  split
  · cases hx : (tier1Rest l).dropWhile isWsChar with
    | nil => rfl
    | cons c r2 =>
      have hc : (c == lbrace) = false := by
        simp only [beq_eq_false_iff_ne, ne_eq]
        exact h c ((tier1Rest_sublist l).mem (firstNonWs_mem _ c r2 hx))
      simp [hc]
  · rfl

theorem tier2At_none (l : List Char) (h : ∀ c ∈ l, ¬(c = lbrace)) :
    tier2At l = none := by
  unfold tier2At
  cases l with
  | nil => rfl
  | cons c r =>
    have hc : (c == lbrace) = false := by
      simp only [beq_eq_false_iff_ne, ne_eq]
      exact h c (List.mem_cons_self c r)
    simp [hc]

theorem tier3At_none (l : List Char) (h : ∀ c ∈ l, ¬(c = lbrace)) :
    tier3At l = none := by
  unfold tier3At
  cases l with
  | nil => rfl
  | cons c r =>
    have hc : (c == lbrace) = false := by
      simp only [beq_eq_false_iff_ne, ne_eq]
      exact h c (List.mem_cons_self c r)
    simp [hc]

theorem reSearch_none {α : Type} (matchAt : List Char → Option α)
    (hm : ∀ l', (∀ c ∈ l', ¬(c = lbrace)) → matchAt l' = none) :
    ∀ l, (∀ c ∈ l, ¬(c = lbrace)) → reSearch matchAt l = none := by
  intro l
  induction l with
  | nil => intro _; rfl
  | cons c rest ih =>
    intro h
    unfold reSearch
    rw [hm _ h]
    exact ih (fun d hd => h d (List.mem_cons_of_mem _ hd))

theorem findJsonStr_none (resp : String)
    (h : ∀ c ∈ resp.data, ¬(c = lbrace)) : findJsonStr resp = none := by
  unfold findJsonStr
  rw [reSearch_none tier1At tier1At_none resp.data h,
    reSearch_none tier2At tier2At_none resp.data h,
    reSearch_none tier3At tier3At_none resp.data h]
  rfl

/-- C5: extraction never raises to its caller. Model text containing no
opening brace at all (hence no brace-delimited structure) yields the
empty list through the not-an-error path, and any exception raised
inside the body — e.g. `json.loads` on a malformed payload — is caught
and converted into the empty list. -/
theorem claim_C5_error_containment (resp : String) (results : List SearchResult) :
    ((∀ c ∈ resp.data, ¬(c = lbrace)) →
      _extract_stocks_from_news (some resp) results = []) ∧
    ((extractStocksBody resp results).isOk = false →
      _extract_stocks_from_news (some resp) results = []) := by
  constructor
  · intro h
    simp only [_extract_stocks_from_news]
    by_cases hre : resp = ""
    · simp [hre]
    · rw [if_neg hre]
      have hb : extractStocksBody resp results = .ok [] := by
        unfold extractStocksBody
        rw [findJsonStr_none resp h]
      rw [hb]
  · intro h
    simp only [_extract_stocks_from_news]
    by_cases hre : resp = ""
    · simp [hre]
    · rw [if_neg hre]
      cases hb : extractStocksBody resp results with
      | ok sigs => rw [hb] at h; simp [Except.isOk, Except.toBool] at h
      | error err => rfl

/-- Model text with no brace-delimited structure at all. -/
def c5NoJson : String := "今日没有值得关注的股票。"

/-- Model text whose fenced payload is not valid JSON. -/
def c5Malformed : String := "```json\n\x7bbad\x7d\n```"

set_option maxRecDepth 10000 in
/-- Witness for C5: both failure shapes at concrete inputs. -/
theorem claim_C5_witness :
    _extract_stocks_from_news (some c5NoJson) [] = [] ∧
    _extract_stocks_from_news (some c5Malformed) [] = [] :=
  ⟨(claim_C5_error_containment c5NoJson []).1 (by decide),
   (claim_C5_error_containment c5Malformed []).2 (by decide)⟩

/-- Model text whose payload has one entry with an uncoercible
`confidence` string and one fully valid sibling entry. -/
def c6Response : String :=
  "```json\n\x7b\"stocks\":[\x7b\"code\":\"600519\",\"confidence\":\"abc\"\x7d,\x7b\"code\":\"000001\",\"name\":\"Y\",\"signal\":\"negative\",\"confidence\":0.9,\"reason\":\"s\"\x7d]\x7d\n```"

set_option maxRecDepth 10000 in
/-- C6 counterexample: the claim says an unparseable `confidence`
defaults to 0.5 and sibling valid entries are kept, so this payload
should yield the sibling `000001`; instead `float("abc")` raises,
the whole batch is aborted (`isOk = false`) and extraction returns
the empty list — no sibling survives. -/
theorem claim_C6_counterexample :
    _extract_stocks_from_news (some c6Response) c4Results = [] ∧
    (extractStocksBody c6Response c4Results).isOk = false := by
  decide

/-- Entries on which the extraction loop cannot raise: a dict whose
`code` and `signal` fields (after their defaults) are strings and whose
`confidence` (after its default) is float-coercible. -/
def entryWFb (e : JsonVal) : Bool :=
  match e with
  | .obj fields =>
    (match entryGet fields "code" (.str "") with
     | .str _ => true
     | _ => false) &&
    (match entryGet fields "signal" (.str "") with
     | .str _ => true
     | _ => false) &&
    (pyFloat (entryGet fields "confidence" (.num (mkRat 1 2)))).isSome
  | _ => false

/-- The per-entry mapping as the spec words it (§4.2): trimmed code,
dropped when invalid; signal keyword mapping with `Neutral` default;
`name`/`reason` defaults; confidence coerced with default 0.5 when the
field is missing; first-result attribution. -/
def entrySignal (results : List SearchResult) : JsonVal → Option StockSignal
  | .obj fields =>
    match entryGet fields "code" (.str "") with
    | .str codeRaw =>
      if !(_is_valid_stock_code (pyStrip codeRaw)) then none
      else
        match entryGet fields "signal" (.str "") with
        | .str sigRaw =>
          match pyFloat (entryGet fields "confidence" (.num (mkRat 1 2))) with
          | some conf => some
              { code := pyStrip codeRaw
                name := jsonFieldText (entryGet fields "name" (.str "未知"))
                signal_type := signalTypeOf (pyLower sigRaw)
                reason := jsonFieldText (entryGet fields "reason" (.str ""))
                source := match results with | [] => "新闻" | r :: _ => r.source
                confidence := conf
                news_title := match results with | [] => "" | r :: _ => r.title }
          | none => none
        | _ => none
    | _ => none
  | _ => none

/-- C6 (amended): over well-formed entries the loop equals a per-entry
`filterMap` — an entry whose trimmed code fails validation is dropped
with all siblings kept, and confidence is the coerced field value,
defaulting to 0.5 exactly when the field is missing; but an entry whose
`confidence` is present and not float-coercible raises, aborting the
whole batch into an error (hence an empty extraction), siblings
included. -/
theorem claim_C6_confidence (results : List SearchResult) (entries : List JsonVal) :
    (entries.all entryWFb = true →
      processEntries results entries = .ok (entries.filterMap (entrySignal results))) ∧
    (∀ fields codeRaw,
      entryGet fields "code" (.str "") = .str codeRaw →
      _is_valid_stock_code (pyStrip codeRaw) = true →
      (∃ sg, entryGet fields "signal" (.str "") = .str sg) →
      pyFloat (entryGet fields "confidence" (.num (mkRat 1 2))) = none →
      processEntries results (.obj fields :: entries) = .error ()) := by
  constructor
  · intro hwf
    induction entries with
    | nil => rfl
    | cons e rest ih =>
      rw [List.all_cons, Bool.and_eq_true] at hwf
      obtain ⟨he, hrest⟩ := hwf
      cases e with
      | obj fields =>
        simp only [entryWFb, Bool.and_eq_true] at he
        obtain ⟨⟨hcodeB, hsigB⟩, hconfB⟩ := he
        cases hcode : entryGet fields "code" (.str "") with
        | str codeRaw =>
          simp only [processEntries, List.filterMap_cons, entrySignal, hcode]
          by_cases hv : _is_valid_stock_code (pyStrip codeRaw)
          · rw [hv]
            cases hsig : entryGet fields "signal" (.str "") with
            | str sigRaw =>
              cases hconf : pyFloat (entryGet fields "confidence" (.num (mkRat 1 2))) with
              | some conf => rw [ih hrest]; rfl
              | none => rw [hconf] at hconfB; simp at hconfB
            | num q => rw [hsig] at hsigB; simp at hsigB
            | bool b => rw [hsig] at hsigB; simp at hsigB
            | null => rw [hsig] at hsigB; simp at hsigB
            | arr items => rw [hsig] at hsigB; simp at hsigB
            | obj fs => rw [hsig] at hsigB; simp at hsigB
          · have hvf : _is_valid_stock_code (pyStrip codeRaw) = false := by
              simpa using hv
            rw [hvf]
            exact ih hrest
        | num q => rw [hcode] at hcodeB; simp at hcodeB
        | bool b => rw [hcode] at hcodeB; simp at hcodeB
        | null => rw [hcode] at hcodeB; simp at hcodeB
        | arr items => rw [hcode] at hcodeB; simp at hcodeB
        | obj fs => rw [hcode] at hcodeB; simp at hcodeB
      | str s => simp [entryWFb] at he
      | num q => simp [entryWFb] at he
      | bool b => simp [entryWFb] at he
      | null => simp [entryWFb] at he
      | arr items => simp [entryWFb] at he
  · rintro fields codeRaw hcode hv ⟨sg, hsg⟩ hconf
    simp only [processEntries, hcode, hv, hsg, hconf, Bool.not_true,
      Bool.false_eq_true, if_false]

/-- Two well-formed entries: an invalid 5-digit code and a valid entry
with the confidence field missing. -/
def c6WFEntries : List JsonVal :=
  [.obj [("code", .str "12345"), ("name", .str "A")],
   .obj [("code", .str "600519"), ("name", .str "X"),
         ("signal", .str "positive"), ("reason", .str "r")]]

/-- Entry fields with a valid code but an uncoercible confidence. -/
def c6BadFields : List (String × JsonVal) :=
  [("code", .str "600519"), ("confidence", .str "abc")]

set_option maxRecDepth 10000 in
/-- Witness for C6 (amended): the invalid-code entry is dropped with
its sibling kept (confidence defaulted), while a present uncoercible
confidence errors the batch. -/
theorem claim_C6_witness :
    (processEntries [] c6WFEntries =
      .ok (c6WFEntries.filterMap (entrySignal []))) ∧
    (processEntries [] (.obj c6BadFields :: []) = .error ()) :=
  ⟨(claim_C6_confidence [] c6WFEntries).1 (by decide),
   (claim_C6_confidence [] []).2 c6BadFields "600519" rfl (by decide)
     ⟨"", rfl⟩ (by decide)⟩

set_option maxRecDepth 10000 in
/-- C9 counterexample: the claim says a batch with an empty result list
gets empty attribution values; in the code the `source` fallback is the
non-empty placeholder `新闻` (only `news_title` is empty). -/
theorem claim_C9_counterexample :
    (_extract_stocks_from_news (some c4Response) []).map StockSignal.source =
      ["新闻"] ∧ ¬("新闻" = "") := by
  decide

/-- The `source` attribution of one extraction batch (source line 296). -/
def attrSource (results : List SearchResult) : String :=
  match results with
  | [] => "新闻"
  | r :: _ => r.source

/-- The `news_title` attribution of one extraction batch (source line
298). -/
def attrTitle (results : List SearchResult) : String :=
  match results with
  | [] => ""
  | r :: _ => r.title

theorem processEntries_attr (results : List SearchResult) (s : StockSignal) :
    ∀ (entries : List JsonVal) (sigs : List StockSignal),
    processEntries results entries = .ok sigs → s ∈ sigs →
    s.source = attrSource results ∧ s.news_title = attrTitle results := by
  intro entries
  induction entries with
  | nil =>
    intro sigs h hs
    simp only [processEntries] at h
    cases h
    cases hs
  | cons e rest ih =>
    intro sigs h hs
    simp only [processEntries] at h
    split at h
    · split at h
      · rename_i fields codeRaw hcode
        split at h
        · exact ih sigs h hs
        · split at h
          · split at h
            · split at h
              · rename_i sigRaw hsig conf hconf sigs2 hrec
                injection h with h2
                subst h2
                rcases List.mem_cons.mp hs with rfl | hm
                · exact ⟨rfl, rfl⟩
                · exact ih sigs2 hrec hm
              · simp at h
            · simp at h
          · simp at h
      · simp at h
    · simp at h

theorem processStocks_attr (sd : JsonVal) (results : List SearchResult)
    (sigs : List StockSignal) (h : processStocks sd results = .ok sigs)
    (s : StockSignal) (hs : s ∈ sigs) :
    s.source = attrSource results ∧ s.news_title = attrTitle results := by
  cases sd with
  | arr entries => exact processEntries_attr results s entries sigs h hs
  | obj fields =>
    cases fields with
    | nil =>
      simp only [processStocks, Except.ok.injEq] at h
      subst h
      cases hs
    | cons f fs => exact absurd h (by simp [processStocks])
  | str st =>
    simp only [processStocks] at h
    split at h
    · simp only [Except.ok.injEq] at h
      subst h
      cases hs
    · simp at h
  | num q => exact absurd h (by simp [processStocks])
  | bool b => exact absurd h (by simp [processStocks])
  | null => exact absurd h (by simp [processStocks])

/-- C9 (amended): every signal of one extraction batch takes `source`
and `news_title` from the first element of the originating response's
results; when the response had no results, `news_title` is empty and
`source` is the fixed placeholder `新闻`. All signals of a batch get
this same attribution. -/
theorem claim_C9_attribution (response : Option String)
    (results : List SearchResult) (s : StockSignal)
    (hs : s ∈ _extract_stocks_from_news response results) :
    s.source = attrSource results ∧ s.news_title = attrTitle results := by
  cases response with
  | none => simp [_extract_stocks_from_news] at hs
  | some r =>
    by_cases hre : r = ""
    · simp [_extract_stocks_from_news, hre] at hs
    · simp only [_extract_stocks_from_news, if_neg hre] at hs
      cases hb : extractStocksBody r results with
      | error err => rw [hb] at hs; simp at hs
      | ok sigs =>
        rw [hb] at hs
        unfold extractStocksBody at hb
        split at hb
        · simp only [Except.ok.injEq] at hb
          subst hb
          cases hs
        · split at hb
          · simp at hb
          · split at hb
            · exact processStocks_attr _ results sigs hb s hs
            · simp at hb

/-- The single signal extracted from the C4 fixture. -/
def c4Sig : StockSignal := ⟨"600519", "X", .POSITIVE, "r", "来源A", mkRat 4 5, "标题"⟩

set_option maxRecDepth 10000 in
/-- Witness for C9 (amended) at the C4 fixture. -/
theorem claim_C9_witness :
    c4Sig.source = attrSource c4Results ∧ c4Sig.news_title = attrTitle c4Results :=
  claim_C9_attribution (some c4Response) c4Results c4Sig (by decide)

theorem providerLoop_spec (q : String) :
    ∀ (ps : List Provider) (last : Option SearchResponse),
    (∀ r, last = some r → qualifies r = false) →
    (match providerLoop q ps last with
     | some r => if qualifies r then some r else none
     | none => none) = specFallback ps q := by
  intro ps
  induction ps with
  | nil =>
    intro last hlast
    cases last with
    | none => rfl
    | some r =>
      simp only [providerLoop, specFallback, List.findSome?_nil]
      rw [if_neg]
      simp [hlast r rfl]
  | cons p ps ih =>
    intro last hlast
    simp only [providerLoop, specFallback, List.findSome?_cons]
    by_cases hav : p.is_available = true
    · rw [if_pos hav, if_pos hav]
      cases hsr : p.search q 5 3 with
      | ok r =>
        by_cases hq : qualifies r = true
        · simp [hq]
        · have hqf : qualifies r = false := by simpa using hq
          simp only [hqf, Bool.false_eq_true, if_false]
          try dsimp only
          exact ih (some r) (fun r2 hr2 => by cases hr2; exact hqf)
      | error err =>
        try dsimp only
        exact ih last hlast
    · rw [if_neg hav, if_neg hav]
      exact ih last hlast

theorem providerLoop_equiv (q : String) :
    ∀ (ps ps' : List Provider), List.Forall₂ provEquiv ps ps' →
    ∀ (last : Option SearchResponse),
    providerLoop q ps last = providerLoop q ps' last := by
  intro ps ps' hf
  induction hf with
  | nil => intro last; rfl
  | cons hpp hrest ih =>
    rename_i p1 p2 l1 l2
    intro last
    obtain ⟨hav, hsearch⟩ := hpp
    simp only [providerLoop]
    by_cases h : p1.is_available = true
    · rw [if_pos h, if_pos (hav ▸ h), ← hsearch h]
      cases hsr : p1.search q 5 3 with
      | ok r =>
        try dsimp only
        split
        · rfl
        · exact ih (some r)
      | error err =>
        try dsimp only
        exact ih last
    · rw [if_neg h, if_neg (hav ▸ h)]
      exact ih last

/-- C7: the provider fallback (i) returns exactly the first available,
non-throwing provider response with `success` set and non-empty
results (throwing or non-qualifying providers are passed over, and
exhaustion yields `none`); (ii) is invariant under arbitrary changes to
the `search` functions of unavailable providers, which are therefore
never invoked; (iii) an exhausted search makes the query contribute an
empty signal list, not an error. -/
theorem claim_C7_fallback :
    (∀ (ps : List Provider) (q : String), searchNews ps q = specFallback ps q) ∧
    (∀ (ps ps' : List Provider) (q : String), List.Forall₂ provEquiv ps ps' →
      searchNews ps q = searchNews ps' q) ∧
    (∀ (ps : List Provider) (gen : String → Option String) (q : String),
      searchNews ps q = none → _search_and_extract ps gen q = []) := by
  refine ⟨?_, ?_, ?_⟩
  · intro ps q
    exact providerLoop_spec q ps none (fun r hr => by cases hr)
  · intro ps ps' q hf
    unfold searchNews
    rw [providerLoop_equiv q ps ps' hf none]
  · intro ps gen q h
    unfold _search_and_extract
    rw [h]

def wRespB : SearchResponse := ⟨true, [⟨"T", "S", "N"⟩]⟩

/-- Unavailable provider whose search throws. -/
def wProvA : Provider := ⟨false, fun _ _ _ => .error ()⟩

/-- Unavailable provider with a different search function. -/
def wProvA2 : Provider := ⟨false, fun _ _ _ => .ok ⟨false, []⟩⟩

/-- Available, successful provider. -/
def wProvB : Provider := ⟨true, fun _ _ _ => .ok wRespB⟩

/-- Available provider that never qualifies. -/
def wProvUn : Provider := ⟨true, fun _ _ _ => .ok ⟨false, []⟩⟩

/-- Witness for C7: with A unavailable and B successful, the loop
returns B's response, unchanged when A's search function is replaced;
a list with only non-qualifying providers contributes `[]`. -/
theorem claim_C7_witness :
    searchNews [wProvA, wProvB] "q" = specFallback [wProvA, wProvB] "q" ∧
    searchNews [wProvA, wProvB] "q" = searchNews [wProvA2, wProvB] "q" ∧
    _search_and_extract [wProvUn] (fun _ => none) "q" = [] :=
  ⟨claim_C7_fallback.1 [wProvA, wProvB] "q",
   claim_C7_fallback.2.1 [wProvA, wProvB] [wProvA2, wProvB] "q"
     (List.Forall₂.cons ⟨rfl, fun h => absurd h (by decide)⟩
       (List.Forall₂.cons ⟨rfl, fun _ => rfl⟩ List.Forall₂.nil)),
   claim_C7_fallback.2.2 [wProvUn] (fun _ => none) "q" rfl⟩

theorem screenRel_imp (a b : StockSignal) (h : screenRel a b) :
    (b.signal_type = SignalType.POSITIVE → a.signal_type = SignalType.POSITIVE) ∧
    (a.signal_type = b.signal_type → b.confidence ≤ a.confidence) := by
  unfold screenRel keyLEb screenKey at h
  simp only [Bool.or_eq_true, Bool.and_eq_true, Bool.not_eq_true',
    beq_eq_false_iff_ne, ne_eq, beq_iff_eq, decide_eq_true_eq] at h
  constructor
  · intro hb
    rcases h with ⟨h1, _⟩ | ⟨h1, _⟩
    · exact absurd hb h1
    · rw [hb] at h1
      simpa using h1.symm
  · intro hst
    rcases h with ⟨h1, h2⟩ | ⟨_, h2⟩
    · rw [← hst] at h1
      exact absurd h2 h1
    · exact h2

/-- C1: with more than `top_n` accumulated candidates,
`screen_from_news` returns exactly the first `top_n` elements of the
full sorted sequence, of length exactly `top_n`; in that sorted
sequence every Positive signal precedes every non-Positive one (so any
Positive outranks any non-Positive regardless of confidence), and
within equal signal type confidence is non-increasing. -/
theorem claim_C1_ranking (top_n : Nat) (queries : Option (List String))
    (fetch : String → List StockSignal)
    (h : top_n < (newsAccum queries fetch).length) :
    screen_from_news top_n queries fetch =
      (List.insertionSort screenRel (newsAccum queries fetch)).take top_n ∧
    (screen_from_news top_n queries fetch).length = top_n ∧
    List.Pairwise (fun a b =>
      (b.signal_type = SignalType.POSITIVE → a.signal_type = SignalType.POSITIVE) ∧
      (a.signal_type = b.signal_type → b.confidence ≤ a.confidence))
      (List.insertionSort screenRel (newsAccum queries fetch)) := by
  refine ⟨rfl, ?_, ?_⟩
  · unfold screen_from_news
    rw [List.length_take]
    have hp := (List.perm_insertionSort screenRel (newsAccum queries fetch)).length_eq
    omega
  · exact List.Pairwise.imp (fun hab => screenRel_imp _ _ hab)
      (List.sorted_insertionSort screenRel (newsAccum queries fetch))

def c8N1 : StockSignal := ⟨"600519", "N1", .POSITIVE, "", "新闻", mkRat 7 10, "t1"⟩

def c8N2 : StockSignal := ⟨"000001", "N2", .NEUTRAL, "", "新闻", mkRat 9 10, "t2"⟩

def c8S1 : StockSignal := ⟨"300750", "S1", .NEUTRAL, "", "东财股吧", mkRat 1 2, "t3"⟩

/-- A one-query news collaborator yielding a Positive and a Neutral
signal. -/
def c8Fetch : String → List StockSignal := fun _ => [c8N1, c8N2]

set_option maxRecDepth 10000 in
/-- Witness for C1 at a concrete two-candidate accumulation with
`top_n = 1`. -/
theorem claim_C1_witness :
    1 < (newsAccum (some ["q"]) c8Fetch).length ∧
    (screen_from_news 1 (some ["q"]) c8Fetch =
      (List.insertionSort screenRel (newsAccum (some ["q"]) c8Fetch)).take 1 ∧
    (screen_from_news 1 (some ["q"]) c8Fetch).length = 1 ∧
    List.Pairwise (fun a b =>
      (b.signal_type = SignalType.POSITIVE → a.signal_type = SignalType.POSITIVE) ∧
      (a.signal_type = b.signal_type → b.confidence ≤ a.confidence))
      (List.insertionSort screenRel (newsAccum (some ["q"]) c8Fetch))) :=
  ⟨by decide, claim_C1_ranking 1 (some ["q"]) c8Fetch (by decide)⟩

/-- Invariant of the accumulate/merge state: codes of the accumulated
list are distinct, and all of them are recorded in the seen set. -/
def accInv (st : List StockSignal × List String) : Prop :=
  (st.1.map StockSignal.code).Nodup ∧
  ∀ c ∈ st.1.map StockSignal.code, c ∈ st.2

theorem addSignals_inv (keep : StockSignal → Bool) :
    ∀ (l : List StockSignal) (st : List StockSignal × List String),
    accInv st → accInv (addSignals keep l st) := by
  intro l
  induction l with
  | nil => exact fun st h => h
  | cons s rest ih =>
    rintro ⟨acc, seen⟩ ⟨h1, h2⟩
    simp only [addSignals]
    split
    · rename_i hcond
      rw [Bool.and_eq_true, Bool.not_eq_true'] at hcond
      have hns : s.code ∉ seen := by
        intro hmem
        have hel : seen.contains s.code = true := List.elem_iff.mpr hmem
        rw [hcond.1] at hel
        cases hel
      apply ih
      constructor
      · rw [List.map_append]
        rw [List.nodup_append]
        refine ⟨h1, List.nodup_singleton _, ?_⟩
        intro c hc hcs
        simp only [List.map_cons, List.map_nil, List.mem_singleton] at hcs
        exact hns (hcs ▸ h2 c hc)
      · intro c hc
        rw [List.map_append] at hc
        rcases List.mem_append.mp hc with hc1 | hc2
        · exact List.mem_cons_of_mem _ (h2 c hc1)
        · simp only [List.map_cons, List.map_nil, List.mem_singleton] at hc2
          exact hc2 ▸ List.mem_cons_self _ _
    · exact ih (acc, seen) ⟨h1, h2⟩

theorem newsAccum_inv (queries : Option (List String))
    (fetch : String → List StockSignal) :
    ((newsAccum queries fetch).map StockSignal.code).Nodup := by
  unfold newsAccum
  have hgen : ∀ (qs : List String) (st : List StockSignal × List String),
      accInv st →
      accInv (qs.foldl (fun st q => addSignals (fun _ => true) (fetch q) st) st) := by
    intro qs
    induction qs with
    | nil => exact fun st h => h
    | cons q rest ih =>
      intro st h
      exact ih _ (addSignals_inv _ (fetch q) st h)
  exact (hgen (resolveQueries queries) ([], []) ⟨List.nodup_nil, by simp⟩).1

/-- C2: `screen_from_news` and `screen_combined` both return lists with
pairwise-distinct ticker codes, for every collaborator behaviour. -/
theorem claim_C2_dedup (top_n : Nat) (queries : Option (List String))
    (fetch : String → List StockSignal) (guba : List StockSignal) :
    ((screen_from_news top_n queries fetch).map StockSignal.code).Nodup ∧
    ((screen_combined top_n queries fetch guba).map StockSignal.code).Nodup := by
  constructor
  · unfold screen_from_news
    have h1 := newsAccum_inv queries fetch
    have hperm : ((List.insertionSort screenRel (newsAccum queries fetch)).map
        StockSignal.code).Perm ((newsAccum queries fetch).map StockSignal.code) :=
      (List.perm_insertionSort screenRel (newsAccum queries fetch)).map _
    have h2 := hperm.symm.nodup h1
    exact (((List.insertionSort screenRel
      (newsAccum queries fetch)).take_sublist top_n).map _).nodup h2
  · simp only [screen_combined]
    have base : accInv (([] : List StockSignal), ([] : List String)) :=
      ⟨List.nodup_nil, by simp⟩
    have i3 := addSignals_inv (fun _ => true)
      (screen_from_news (top_n * 2) queries fetch)
      (addSignals (fun _ => true) guba
        (addSignals (fun s => s.signal_type == SignalType.POSITIVE)
          (screen_from_news (top_n * 2) queries fetch) ([], [])))
      (addSignals_inv _ guba _
        (addSignals_inv _ (screen_from_news (top_n * 2) queries fetch) _ base))
    exact ((List.take_sublist _ _).map _).nodup i3.1

theorem addSignals_append (keep : StockSignal → Bool)
    (l1 l2 : List StockSignal) :
    ∀ st, addSignals keep (l1 ++ l2) st = addSignals keep l2 (addSignals keep l1 st) := by
  induction l1 with
  | nil => intro st; rfl
  | cons s rest ih =>
    rintro ⟨acc, seen⟩
    simp only [List.cons_append, addSignals]
    split
    · exact ih _
    · exact ih _

theorem addSignals_filter (p : StockSignal → Bool) :
    ∀ (l : List StockSignal) (st : List StockSignal × List String),
    addSignals (fun s => p s) l st = addSignals (fun _ => true) (l.filter p) st := by
  intro l
  induction l with
  | nil => intro st; rfl
  | cons s rest ih =>
    rintro ⟨acc, seen⟩
    by_cases hp : p s = true
    · simp only [addSignals, List.filter_cons, hp, if_true]
      simp only [addSignals, hp, Bool.and_true]
      split
      · exact ih _
      · exact ih _
    · have hpf : p s = false := by simpa using hp
      simp only [addSignals, List.filter_cons, hpf, Bool.false_eq_true, if_false]
      simp only [hpf, Bool.and_false, Bool.false_eq_true, if_false]
      exact ih _

set_option maxRecDepth 10000 in
/-- C8: `screen_combined` equals a single first-seen-wins dedup pass
over the concatenation of the Positive news tier (in existing order),
the supplementary tier, and the remaining news tier, truncated to
`top_n`, with the news list oversampled to `top_n * 2`; and on the
concrete scenario with Positive news `N1`, supplementary `S1` and
Neutral news `N2` (three distinct codes) the output order is
`[N1, S1, N2]`. -/
theorem claim_C8_combined :
    (∀ (top_n : Nat) (queries : Option (List String))
      (fetch : String → List StockSignal) (guba : List StockSignal),
      screen_combined top_n queries fetch guba =
        (dedupByCode
          ((screen_from_news (top_n * 2) queries fetch).filter
            (fun s => s.signal_type == SignalType.POSITIVE) ++ guba ++
           screen_from_news (top_n * 2) queries fetch)).take top_n) ∧
    screen_combined 3 (some ["q"]) c8Fetch [c8S1] = [c8N1, c8S1, c8N2] := by
  constructor
  · intro top_n queries fetch guba
    simp only [screen_combined, dedupByCode]
    rw [addSignals_append, addSignals_append, ← addSignals_filter]
  · decide

/-- C10: an explicitly empty queries list resolves to the built-in
default list, so calling `screen_from_news` with `[]` behaves exactly
like calling it with no queries argument — it does not short-circuit
to an empty result. -/
theorem claim_C10_empty_queries (top_n : Nat)
    (fetch : String → List StockSignal) :
    screen_from_news top_n (some []) fetch = screen_from_news top_n none fetch ∧
    resolveQueries (some []) = NEWS_QUERIES :=
  ⟨rfl, rfl⟩
